import Mathlib

/-!
# Verification of the 4-hole ocarina chart core

A shallow embedding, in Lean 4, of the core of the ocarina fingering-chart
web application: the fingering table (`FingeringEngine`), the notation
parser/validator (`NoteParser`), the layout engine (`calculateLayout` of the
chart renderer), and the export filename generator (`generateFilename`).

Modelling conventions:
* JavaScript strings become Lean `String`s; per-character operations work on
  `String.data : List Char`.
* `String.prototype.toUpperCase`/`toLowerCase` are modelled by the ASCII maps
  `Char.toUpper`/`Char.toLower` applied characterwise (every string the
  application treats specially is ASCII).
* The regexes used by the source (line splitting on `\r?\n`, tokenizing on
  the class `[\s,|\-]+`, the title prefix `(title|song|name):\s*`, and the
  filename-slug substitutions) are translated to explicit structurally
  recursive scanners on `List Char`.
* JavaScript `number` configuration values (hole radius, spacing) become `ℚ`:
  the layout arithmetic is `+`, `*`, `max` on such values.
* `Date` is not modelled; `generateFilename` receives the string that
  `new Date().toISOString()` would produce as an explicit argument, and the
  `parseTimestamp` metadata field is omitted from `Song`.
* A thrown `Error` becomes `Except String`.
-/

/-! ## JavaScript string primitives -/

/-- The character class matched by `\s` in JavaScript regular expressions and
trimmed by `String.prototype.trim`: whitespace and line terminators. -/
def jsWhitespace (c : Char) : Bool :=
  c = ' ' || c = '\t' || c = '\n' || c = '\r' || c = '\x0b' || c = '\x0c' ||
  c = '\u00A0' || c = '\u1680' || ('\u2000' ≤ c && c ≤ '\u200A') ||
  c = '\u2028' || c = '\u2029' || c = '\u202F' || c = '\u205F' ||
  c = '\u3000' || c = '\uFEFF'

/-- `String.prototype.trim` on the underlying character list. -/
def jsTrimList (l : List Char) : List Char :=
  ((l.dropWhile jsWhitespace).reverse.dropWhile jsWhitespace).reverse

/-- `String.prototype.trim`. -/
def jsTrim (s : String) : String :=
  ⟨jsTrimList s.data⟩

/-- Characterwise `String.prototype.toUpperCase` (ASCII). -/
def jsToUpperStr (s : String) : String :=
  ⟨s.data.map Char.toUpper⟩

/-- Characterwise `String.prototype.toLowerCase` (ASCII). -/
def jsToLowerStr (s : String) : String :=
  ⟨s.data.map Char.toLower⟩

/-- Splitting on `/\r?\n/`: a `'\n'`, optionally preceded by a `'\r'`, ends a
segment; a `'\r'` not followed by `'\n'` is ordinary content. -/
def splitLinesAux : List Char → List Char → List (List Char)
  | [], acc => [acc.reverse]
  | '\r' :: '\n' :: rest, acc => acc.reverse :: splitLinesAux rest []
  | '\n' :: rest, acc => acc.reverse :: splitLinesAux rest []
  | c :: rest, acc => splitLinesAux rest (c :: acc)

/-- `input.split(/\r?\n/)` on the underlying character list. -/
def splitLines (l : List Char) : List (List Char) :=
  splitLinesAux l []

/-- The separator class `[\s,|\-]` of the note tokenization regex. -/
def sepChar (c : Char) : Bool :=
  jsWhitespace c || c = ',' || c = '|' || c = '-'

mutual

/-- `line.split(/[\s,|\-]+/)`, scanning state: inside a token (`acc` holds its
reversed characters so far). A maximal run of separator characters ends the
token and is consumed by `splitSepsRun`. -/
def splitSepsTok : List Char → List Char → List (List Char)
  | [], acc => [acc.reverse]
  | c :: rest, acc =>
    if sepChar c then acc.reverse :: splitSepsRun rest
    else splitSepsTok rest (c :: acc)

/-- `line.split(/[\s,|\-]+/)`, scanning state: inside a separator run whose
token boundary has already been emitted. -/
def splitSepsRun : List Char → List (List Char)
  | [] => [[]]
  | c :: rest =>
    if sepChar c then splitSepsRun rest
    else splitSepsTok rest [c]

end

/-- `line.split(/[\s,|\-]+/)` as strings (empty fields included, as in
JavaScript). -/
def jsSplitSeps (s : String) : List String :=
  (splitSepsTok s.data []).map fun l => ⟨l⟩

/-! ## Fingering engine (`FingeringEngine`, fingering table) -/

/-- `SUPPORTED_NOTES` from `types/validation.ts`: the 7 canonical note names
in display order. -/
def SUPPORTED_NOTES : List String :=
  ["F", "G", "A", "Bb", "C", "D", "E"]

/-- The `ErrorType` enumeration. -/
inductive ErrorType where
  | INVALID_FILE_TYPE
  | UNSUPPORTED_NOTE
  | EMPTY_INPUT
  | PARSING_ERROR
  | RENDERING_ERROR
  | EXPORT_ERROR
deriving DecidableEq

/-- The `WarningType` enumeration. -/
inductive WarningType where
  | NOTE_CONVERSION
  | EMPTY_LINE
  | PERFORMANCE_WARNING
deriving DecidableEq

/-- A `ValidationError`: optional fields of the TS interface become
`Option`s. -/
structure ValidationError where
  type : ErrorType
  message : String
  line : Option Nat := none
  position : Option Nat := none
  suggestions : Option (List String) := none
deriving DecidableEq

/-- A `ValidationWarning`. -/
structure ValidationWarning where
  type : WarningType
  message : String
  line : Option Nat := none
  position : Option Nat := none
deriving DecidableEq

/-- A `ValidationResult`. -/
structure ValidationResult where
  isValid : Bool
  errors : List ValidationError
  warnings : List ValidationWarning
deriving DecidableEq

/-- `FingeringPattern`: a note name together with its 4 hole slots
`[top-left, top-right, bottom-left, bottom-right]`, `true` = covered. -/
structure FingeringPattern where
  note : String
  holes : List Bool
deriving DecidableEq

/-- The `FINGERING_PATTERNS` record, as an association list keyed by the
canonical note name. -/
def FINGERING_PATTERNS : List (String × FingeringPattern) :=
  [("F",  ⟨"F",  [true,  true,  true,  true ]⟩),
   ("G",  ⟨"G",  [true,  false, true,  true ]⟩),
   ("A",  ⟨"A",  [true,  true,  true,  false]⟩),
   ("Bb", ⟨"Bb", [true,  false, true,  false]⟩),
   ("C",  ⟨"C",  [false, false, true,  true ]⟩),
   ("D",  ⟨"D",  [false, false, true,  false]⟩),
   ("E",  ⟨"E",  [false, true,  false, false]⟩)]

/-- `FingeringEngine.normalizeNote`: trim whitespace. -/
def FingeringEngine.normalizeNote (note : String) : String :=
  jsTrim note

/-- `FingeringEngine.isSupported`. -/
def FingeringEngine.isSupported (note : String) : Bool :=
  SUPPORTED_NOTES.contains (FingeringEngine.normalizeNote note)

/-- `FingeringEngine.getPattern`: `null` becomes `none`. -/
def FingeringEngine.getPattern (note : String) : Option FingeringPattern :=
  let normalizedNote := FingeringEngine.normalizeNote note
  if FingeringEngine.isSupported normalizedNote then
    FINGERING_PATTERNS.lookup normalizedNote
  else
    none

/-- The `noteMap` table of `FingeringEngine.getSuggestions`. -/
def fingeringNoteMap : List (String × List String) :=
  [("B", ["Bb", "A", "C"]),
   ("Db", ["D", "C"]),
   ("Eb", ["E", "D"]),
   ("Gb", ["G", "F"]),
   ("Ab", ["A", "G"])]

/-- `FingeringEngine.getSuggestions`: successive `push`es become list
appends. -/
def FingeringEngine.getSuggestions (note : String) : List String :=
  let fromB := if jsToLowerStr note = "b" then ["Bb"] else []
  let fromMap :=
    match fingeringNoteMap.lookup note with
    | some l => l
    | none => []
  let suggestions := fromB ++ fromMap
  if suggestions = [] then SUPPORTED_NOTES else suggestions

/-- The per-index loop body of `FingeringEngine.validateNotes`; `i` is the
0-based index of the head of `notes` in the original array. -/
def FingeringEngine.validateNotesAux (notes : List String) (i : Nat) :
    List ValidationError :=
  match notes with
  | [] => []
  | note :: rest =>
    let normalizedNote := jsTrim note
    (if FingeringEngine.isSupported normalizedNote then []
     else
       [{ type := ErrorType.UNSUPPORTED_NOTE,
          message := "Note \"" ++ note ++ "\" is not supported by 4-hole ocarina",
          position := some i,
          suggestions := some (FingeringEngine.getSuggestions normalizedNote) }])
      ++ FingeringEngine.validateNotesAux rest (i + 1)

/-- `FingeringEngine.validateNotes`. -/
def FingeringEngine.validateNotes (notes : List String) : ValidationResult :=
  let errors := FingeringEngine.validateNotesAux notes 0
  { isValid := errors.length == 0, errors := errors, warnings := [] }

/-! ## Notation parser (`NoteParser`) -/

/-- The `ParseConfig` of `NoteParser`. -/
structure ParseConfig where
  autoConvertB : Bool
  strictValidation : Bool
  maxLines : Nat
  maxNotesPerLine : Nat
deriving DecidableEq

/-- `DEFAULT_CONFIG` of `NoteParser`. -/
def DEFAULT_CONFIG : ParseConfig :=
  { autoConvertB := true, strictValidation := true, maxLines := 100,
    maxNotesPerLine := 50 }

/-- `NoteParser.preprocessInput`: split raw text on `\r?\n` and trim every
line. -/
def NoteParser.preprocessInput (input : String) : List String :=
  (splitLines input.data).map fun l => jsTrim ⟨l⟩

/-- The tokenization `line.split(/[\s,|\-]+/).map(trim).filter(nonempty)` as
written inside `NoteParser.parseNotesFromLine`. -/
def NoteParser.rawNoteTokens (line : String) : List String :=
  ((jsSplitSeps line).map jsTrim).filter fun note => note.length > 0

/-- The identical tokenization as written, a second time, inside
`NoteParser.validateNoteLine` (the source duplicates the regex split). -/
def NoteParser.validationTokens (line : String) : List String :=
  ((jsSplitSeps line).map jsTrim).filter fun note => note.length > 0

/-- `NoteParser.convertNotes`: apply the `autoConvertB` policy, returning the
converted notes together with the conversion warnings. -/
def NoteParser.convertNotes (cfg : ParseConfig) :
    List String → List String × List ValidationWarning
  | [] => ([], [])
  | note :: rest =>
    let r := NoteParser.convertNotes cfg rest
    if jsToUpperStr note = "B" ∧ cfg.autoConvertB then
      ("Bb" :: r.1,
       { type := WarningType.NOTE_CONVERSION,
         message := "Converted \x27B\x27 to \x27Bb\x27 (4-hole ocarinas use Bb instead of B)" } :: r.2)
    else
      (note :: r.1, r.2)

/-- The elementwise action of `NoteParser.convertNotes` on one raw token
(used to state theorems about positions). -/
def NoteParser.noteConvertOne (cfg : ParseConfig) (note : String) : String :=
  if jsToUpperStr note = "B" ∧ cfg.autoConvertB then "Bb" else note

/-- The case normalization of `NoteParser.parseNotesFromLine`: uppercase,
special-case `BB → Bb`, keep supported uppercased names, otherwise pass the
original token through. -/
def NoteParser.normalizeNoteToken (note : String) : String :=
  let upperNote := jsToUpperStr note
  if upperNote = "BB" then "Bb"
  else if SUPPORTED_NOTES.contains upperNote then upperNote
  else note

/-- `NoteParser.parseNotesFromLine`. -/
def NoteParser.parseNotesFromLine (cfg : ParseConfig) (line : String) :
    List String :=
  let rawNotes := NoteParser.rawNoteTokens line
  let notes := (NoteParser.convertNotes cfg rawNotes).1
  notes.map NoteParser.normalizeNoteToken

/-- `NoteParser.parseNoteLines`: skip blank lines, collect the non-empty
parsed note arrays in order. -/
def NoteParser.parseNoteLines (cfg : ParseConfig) : List String → List (List String)
  | [] => []
  | line :: rest =>
    if (jsTrim line).length = 0 then NoteParser.parseNoteLines cfg rest
    else
      let notes := NoteParser.parseNotesFromLine cfg line
      if notes.length > 0 then notes :: NoteParser.parseNoteLines cfg rest
      else NoteParser.parseNoteLines cfg rest

/-- One alternative of the title prefix regex `(title|song|name):` followed by
`\s*`, matched case-insensitively at the start of `l`. -/
def NoteParser.stripOneTitleKey (kw : List Char) (l : List Char) :
    Option (List Char) :=
  if (l.take kw.length).map Char.toLower = kw then
    match l.drop kw.length with
    | ':' :: rest => some (rest.dropWhile jsWhitespace)
    | _ => none
  else none

/-- The `replace` of the title prefix regex on the title line. -/
def NoteParser.stripTitleTag (s : String) : String :=
  match NoteParser.stripOneTitleKey "title".data s.data with
  | some r => ⟨r⟩
  | none =>
    match NoteParser.stripOneTitleKey "song".data s.data with
    | some r => ⟨r⟩
    | none =>
      match NoteParser.stripOneTitleKey "name".data s.data with
      | some r => ⟨r⟩
      | none => s

/-- `NoteParser.extractTitle`. -/
def NoteParser.extractTitle (lines : List String) : String :=
  match lines with
  | [] => "Untitled Song"
  | first :: _ =>
    let titleLine := jsTrim first
    if titleLine.length = 0 then "Untitled Song"
    else
      let cleanTitle := jsTrim (NoteParser.stripTitleTag titleLine)
      if cleanTitle = "" then "Untitled Song" else cleanTitle

/-- The case normalization of `NoteParser.validateNote`: first character
uppercased, the rest lowercased. -/
def NoteParser.normalizeFirstUpper (s : String) : String :=
  match s.data with
  | [] => ""
  | c :: rest => ⟨Char.toUpper c :: rest.map Char.toLower⟩

/-- `NoteParser.validateNote`. -/
def NoteParser.validateNote (cfg : ParseConfig) (note : String)
    (lineNumber position : Nat) : ValidationResult :=
  let normalizedNote := NoteParser.normalizeFirstUpper note
  let ew : List ValidationError × List ValidationWarning :=
    if SUPPORTED_NOTES.contains normalizedNote then ([], [])
    else if jsToUpperStr note = "B" then
      if cfg.autoConvertB then
        ([],
         [{ type := WarningType.NOTE_CONVERSION,
            message := "Note \x27B\x27 will be converted to \x27Bb\x27",
            line := some lineNumber, position := some position }])
      else
        ([{ type := ErrorType.UNSUPPORTED_NOTE,
            message := "Unsupported note \x27" ++ note ++ "\x27 at line " ++
              toString lineNumber ++ ", position " ++ toString position,
            line := some lineNumber, position := some position,
            suggestions := some
              ("Use Bb instead of B for 4-hole ocarinas" :: SUPPORTED_NOTES) }],
         [])
    else
      ([{ type := ErrorType.UNSUPPORTED_NOTE,
          message := "Unsupported note \x27" ++ note ++ "\x27 at line " ++
            toString lineNumber ++ ", position " ++ toString position,
          line := some lineNumber, position := some position,
          suggestions := some
            ["Supported notes: " ++ String.intercalate ", " SUPPORTED_NOTES] }],
       [])
  { isValid := ew.1.length == 0, errors := ew.1, warnings := ew.2 }

/-- The first loop of `NoteParser.validateNoteLine`: a `NoteConversion`
warning for every raw token that will be auto-converted; `position` is the
1-based index of the head of the remaining list. -/
def NoteParser.bConversionWarnings (cfg : ParseConfig) :
    List String → Nat → Nat → List ValidationWarning
  | [], _, _ => []
  | note :: rest, lineNumber, position =>
    (if jsToUpperStr note = "B" ∧ cfg.autoConvertB then
      [{ type := WarningType.NOTE_CONVERSION,
         message := "Note \x27B\x27 will be converted to \x27Bb\x27",
         line := some lineNumber, position := some position }]
     else []) ++ NoteParser.bConversionWarnings cfg rest lineNumber (position + 1)

/-- The second loop of `NoteParser.validateNoteLine`: validate every note
after conversion, dropping the duplicate `NoteConversion` warnings. -/
def NoteParser.validateNotesInLine (cfg : ParseConfig) :
    List String → Nat → Nat → List ValidationError × List ValidationWarning
  | [], _, _ => ([], [])
  | note :: rest, lineNumber, position =>
    let r := NoteParser.validateNote cfg note lineNumber position
    let next := NoteParser.validateNotesInLine cfg rest lineNumber (position + 1)
    (r.errors ++ next.1,
     r.warnings.filter (fun w => w.type ≠ WarningType.NOTE_CONVERSION) ++ next.2)

/-- `NoteParser.validateNoteLine`. -/
def NoteParser.validateNoteLine (cfg : ParseConfig) (line : String)
    (lineNumber : Nat) : ValidationResult :=
  if (jsTrim line).length = 0 then
    { isValid := true, errors := [],
      warnings := [{ type := WarningType.EMPTY_LINE,
                     message := "Line " ++ toString lineNumber ++ " is empty",
                     line := some lineNumber }] }
  else
    let rawNotes := NoteParser.validationTokens line
    let bWarnings := NoteParser.bConversionWarnings cfg rawNotes lineNumber 1
    let notes := NoteParser.parseNotesFromLine cfg line
    let countErrors :=
      if notes.length > cfg.maxNotesPerLine then
        [{ type := ErrorType.PARSING_ERROR,
           message := "Too many notes on line " ++ toString lineNumber ++
             " (" ++ toString notes.length ++ "). Maximum: " ++
             toString cfg.maxNotesPerLine,
           line := some lineNumber,
           suggestions := some ["Split long lines into multiple shorter lines"] }]
      else []
    let perNote := NoteParser.validateNotesInLine cfg notes lineNumber 1
    let errors := countErrors ++ perNote.1
    let warnings := bWarnings ++ perNote.2
    { isValid := errors.length == 0, errors := errors, warnings := warnings }

/-- The per-line loop of `NoteParser.validateInput` over the lines after the
title, numbered from `lineNumber`. -/
def NoteParser.validateLines (cfg : ParseConfig) :
    List String → Nat → List ValidationError × List ValidationWarning
  | [], _ => ([], [])
  | line :: rest, lineNumber =>
    let r := NoteParser.validateNoteLine cfg line lineNumber
    let next := NoteParser.validateLines cfg rest (lineNumber + 1)
    (r.errors ++ next.1, r.warnings ++ next.2)

/-- `NoteParser.validateInput`. The source guard `!input || input.trim().length === 0`
is equivalent to the trimmed input being empty. -/
def NoteParser.validateInput (cfg : ParseConfig) (input : String) :
    ValidationResult :=
  if (jsTrim input).length = 0 then
    { isValid := false,
      errors := [{ type := ErrorType.EMPTY_INPUT,
                   message := "Input cannot be empty",
                   suggestions := some ["Enter song notation or load an example song"] }],
      warnings := [] }
  else
    let lines := NoteParser.preprocessInput input
    let shapeErrors :=
      if lines.length < 2 then
        [{ type := ErrorType.PARSING_ERROR,
           message := "Input must contain a title and at least one line of notes",
           suggestions := some ["Add a title on the first line and notes on subsequent lines"] }]
      else []
    let countErrors :=
      if lines.length > cfg.maxLines then
        [{ type := ErrorType.PARSING_ERROR,
           message := "Too many lines (" ++ toString lines.length ++
             "). Maximum allowed: " ++ toString cfg.maxLines,
           suggestions := some ["Split large songs into smaller sections"] }]
      else []
    let perLine := NoteParser.validateLines cfg (lines.drop 1) 2
    let errors := shapeErrors ++ countErrors ++ perLine.1
    { isValid := errors.length == 0, errors := errors, warnings := perLine.2 }

/-- `Song.metadata` (the `parseTimestamp` `Date` field is not modelled). -/
structure SongMetadata where
  originalInput : String
  noteCount : Nat
deriving DecidableEq

/-- A parsed `Song`. -/
structure Song where
  title : String
  lines : List (List String)
  metadata : SongMetadata
deriving DecidableEq

/-- `NoteParser.parseSong`: the `throw` on failed validation becomes
`Except.error` carrying the thrown message. -/
def NoteParser.parseSong (cfg : ParseConfig) (input : String) :
    Except String Song :=
  let validation := NoteParser.validateInput cfg input
  if validation.isValid then
    let lines := NoteParser.preprocessInput input
    let title := NoteParser.extractTitle lines
    let noteLines := NoteParser.parseNoteLines cfg (lines.drop 1)
    Except.ok
      { title := title, lines := noteLines,
        metadata := { originalInput := input,
                      noteCount := noteLines.flatten.length } }
  else
    Except.error ("Parsing failed: " ++ String.intercalate ", "
      (validation.errors.map fun e => e.message))

/-! ## Layout engine (`ChartRenderer.calculateLayout`) -/

/-- The `colors` record of `ChartConfig`. -/
structure ChartColors where
  background : String
  holeFilled : String
  holeEmpty : String
  text : String
deriving DecidableEq

/-- `ChartConfig`: numeric style configuration (JavaScript `number`s modelled
as `ℚ`). -/
structure ChartConfig where
  canvasWidth : ℚ
  canvasHeight : ℚ
  holeRadius : ℚ
  spacing : ℚ
  colors : ChartColors
deriving DecidableEq

/-- The `margins` record of `LayoutInfo`. -/
structure LayoutMargins where
  top : ℚ
  right : ℚ
  bottom : ℚ
  left : ℚ
deriving DecidableEq

/-- `LayoutInfo`. -/
structure LayoutInfo where
  totalWidth : ℚ
  totalHeight : ℚ
  lineHeight : ℚ
  patternWidth : ℚ
  patternHeight : ℚ
  margins : LayoutMargins
deriving DecidableEq

/-- `Math.max(...)` spread over a list (only applied to non-empty lists by
the layout code, which guards the empty-song case separately). -/
def jsMathMax : List ℚ → ℚ
  | [] => 0
  | x :: xs => xs.foldl max x

/-- The `maxNotesPerLine` computation of `calculateLayout`: the maximum line
length of the song, or 1 when there are no lines. -/
def maxNotesPerLineOf (song : Song) : ℚ :=
  if song.lines.length > 0 then
    jsMathMax (song.lines.map fun line => (line.length : ℚ))
  else 1

/-- `ChartRenderer.calculateLayout`. -/
def ChartRenderer.calculateLayout (config : ChartConfig) (song : Song) :
    LayoutInfo :=
  let spacing := config.spacing
  let holeRadius := config.holeRadius
  let patternWidth := holeRadius * 2 * 2 + spacing
  let patternHeight := holeRadius * 2 * 2 + spacing
  let maxNotesPerLine := maxNotesPerLineOf song
  let lineWidth := maxNotesPerLine * (patternWidth + spacing * 2)
  let lineHeight := patternHeight + spacing * 3
  let margins : LayoutMargins :=
    { top := spacing * 2, right := spacing * 2,
      bottom := spacing * 2, left := spacing * 2 }
  let totalWidth := lineWidth + margins.left + margins.right
  let totalHeight :=
    max (song.lines.length : ℚ) 1 * lineHeight +
      margins.top + margins.bottom + spacing * 2
  { totalWidth := totalWidth, totalHeight := totalHeight,
    lineHeight := lineHeight, patternWidth := patternWidth,
    patternHeight := patternHeight, margins := margins }

/-! ## Export filename (`ChartRenderer.generateFilename`) -/

/-- The character class `\w` of JavaScript regular expressions. -/
def isWordChar (c : Char) : Bool :=
  c.isAlpha || c.isDigit || c = '_'

mutual

/-- `.replace(/\s+/g, "-")`: scanning state outside a whitespace run. -/
def wsToHyphen : List Char → List Char
  | [] => []
  | c :: rest =>
    if jsWhitespace c then '-' :: wsSkipRun rest else c :: wsToHyphen rest

/-- `.replace(/\s+/g, "-")`: scanning state inside a whitespace run whose
replacement hyphen has already been emitted. -/
def wsSkipRun : List Char → List Char
  | [] => []
  | c :: rest =>
    if jsWhitespace c then wsSkipRun rest else c :: wsToHyphen rest

end

mutual

/-- Collapsing hyphen runs to a single hyphen: scanning state outside a
run. -/
def hyphenCollapse : List Char → List Char
  | [] => []
  | c :: rest =>
    if c = '-' then '-' :: hyphenSkipRun rest else c :: hyphenCollapse rest

/-- Collapsing hyphen runs to a single hyphen: scanning state inside a run
whose first hyphen has already been emitted. -/
def hyphenSkipRun : List Char → List Char
  | [] => []
  | c :: rest =>
    if c = '-' then hyphenSkipRun rest else c :: hyphenCollapse rest

end

/-- `.replace(/^-|-$/g, "")`: remove one leading and one trailing hyphen. -/
def stripEdgeHyphens (l : List Char) : List Char :=
  let l1 := match l with
    | '-' :: rest => rest
    | _ => l
  match l1.reverse with
  | '-' :: rest2 => rest2.reverse
  | _ => l1

/-- `ChartRenderer.generateFilename`. `isoNow` is the string produced by
`new Date().toISOString()` at the moment of the call (the one effectful input
of the source function). -/
def ChartRenderer.generateFilename (songTitle : String) (isoNow : String) :
    String :=
  let step1 := jsTrimList songTitle.data
  let step2 := step1.filter fun c => isWordChar c || jsWhitespace c || c = '-'
  let step3 := wsToHyphen step2
  let step4 := hyphenCollapse step3
  let step5 := stripEdgeHyphens step4
  let cleanTitle : String := ⟨(step5.map Char.toLower).take 50⟩
  let timestamp : String :=
    ⟨((isoNow.data.take 19).filter fun c => !(c = ':' || c = '-')).map Char.toLower⟩
  if cleanTitle ≠ "" then cleanTitle ++ "-" ++ timestamp ++ ".png"
  else "ocarina-chart-" ++ timestamp ++ ".png"

/-- Decidable predicate: a `NoteConversion` warning at line `n`, token
position `q` (used to count warnings in theorem statements). -/
def isConvWarnAt (n q : Nat) (w : ValidationWarning) : Bool :=
  w.type = WarningType.NOTE_CONVERSION ∧ w.line = some n ∧ w.position = some q

/-! ## Concrete instances used by closed theorems -/

/-- A concrete style configuration (the shape of the application's default). -/
def demoConfig : ChartConfig :=
  { canvasWidth := 800, canvasHeight := 600, holeRadius := 10, spacing := 5,
    colors := { background := "#ffffff", holeFilled := "#333333",
                holeEmpty := "#ffffff", text := "#333333" } }

/-- Build a `Song` value with the given note lines. -/
def mkSong (ls : List (List String)) : Song :=
  { title := "Song", lines := ls,
    metadata := { originalInput := "", noteCount := 0 } }

/-- A title line followed by 101 blank lines: 102 preprocessed lines. -/
def manyBlankInput : String :=
  ⟨'T' :: List.replicate 101 '\n'⟩

/-! ## C1 theorem -/

/-- C1: for every note in {F, G, A, Bb, C, D, E}, `getPattern` returns the
pattern whose 4-boolean holes vector equals the canonical table exactly, and
the 7 hole vectors are pairwise distinct. -/
theorem C1_fingering_table :
    FingeringEngine.getPattern "F" = some ⟨"F", [true, true, true, true]⟩ ∧
    FingeringEngine.getPattern "G" = some ⟨"G", [true, false, true, true]⟩ ∧
    FingeringEngine.getPattern "A" = some ⟨"A", [true, true, true, false]⟩ ∧
    FingeringEngine.getPattern "Bb" = some ⟨"Bb", [true, false, true, false]⟩ ∧
    FingeringEngine.getPattern "C" = some ⟨"C", [false, false, true, true]⟩ ∧
    FingeringEngine.getPattern "D" = some ⟨"D", [false, false, true, false]⟩ ∧
    FingeringEngine.getPattern "E" = some ⟨"E", [false, true, false, false]⟩ ∧
    (SUPPORTED_NOTES.map
        (fun n => (FingeringEngine.getPattern n).map FingeringPattern.holes)).Pairwise
      (fun a b => a ≠ b) := by
  decide

/-! ## Layout lemmas and theorems (C5, C6) -/

/-- `Math.max` over casts of naturals agrees with the `Nat` fold. -/
theorem foldl_qmax_natCast : ∀ (ls : List ℕ) (x : ℕ),
    List.foldl max ((x : ℚ)) (ls.map (Nat.cast : ℕ → ℚ)) =
      ((List.foldl Nat.max x ls : ℕ) : ℚ) := by
  intro ls
  induction ls with
  | nil => intro x; rfl
  | cons b tl ih =>
    intro x
    simp only [List.map_cons, List.foldl_cons, ← Nat.cast_max]
    exact ih _

/-- The code's `maxNotesPerLine` is the maximum line length of the song (1
when there are no lines), as the spec describes it. -/
theorem maxNotesPerLineOf_spec (song : Song) :
    maxNotesPerLineOf song =
      if song.lines.isEmpty then (1 : ℚ)
      else (((song.lines.map List.length).foldl Nat.max 0 : ℕ) : ℚ) := by
  cases h : song.lines with
  | nil => simp [maxNotesPerLineOf, h]
  | cons a tl =>
    have hmap : ∀ (l : List (List String)),
        List.map (fun line : List String => ((line.length : ℕ) : ℚ)) l =
          (l.map List.length).map (Nat.cast : ℕ → ℚ) := by
      intro l; simp [List.map_map, Function.comp]
    simp only [maxNotesPerLineOf, jsMathMax, h, List.map_cons, List.length_cons,
      List.isEmpty_cons, if_neg (by simp : ¬((false : Bool) = true)),
      if_pos (Nat.succ_pos tl.length), List.foldl_cons, Nat.zero_max, hmap,
      foldl_qmax_natCast]

/-- C5: `calculateLayout` returns exactly the geometry formulas of the spec:
`patternWidth = patternHeight = holeRadius*4 + spacing`,
`lineHeight = patternHeight + spacing*3`, uniform margins of `spacing*2`,
`totalWidth = maxNotesPerLine*(patternWidth + spacing*2) + left + right` with
`maxNotesPerLine` the maximum line length (or 1 with no lines), and
`totalHeight = max(numLines,1)*lineHeight + top + bottom + spacing*2`. -/
theorem C5_layout_formulas (config : ChartConfig) (song : Song) :
    (ChartRenderer.calculateLayout config song).patternWidth =
      config.holeRadius * 4 + config.spacing ∧
    (ChartRenderer.calculateLayout config song).patternHeight =
      config.holeRadius * 4 + config.spacing ∧
    (ChartRenderer.calculateLayout config song).lineHeight =
      (ChartRenderer.calculateLayout config song).patternHeight +
        config.spacing * 3 ∧
    (ChartRenderer.calculateLayout config song).margins =
      { top := config.spacing * 2, right := config.spacing * 2,
        bottom := config.spacing * 2, left := config.spacing * 2 } ∧
    (ChartRenderer.calculateLayout config song).totalWidth =
      (if song.lines.isEmpty then (1 : ℚ)
       else (((song.lines.map List.length).foldl Nat.max 0 : ℕ) : ℚ)) *
        ((ChartRenderer.calculateLayout config song).patternWidth +
          config.spacing * 2) +
        (ChartRenderer.calculateLayout config song).margins.left +
        (ChartRenderer.calculateLayout config song).margins.right ∧
    (ChartRenderer.calculateLayout config song).totalHeight =
      max (song.lines.length : ℚ) 1 *
          (ChartRenderer.calculateLayout config song).lineHeight +
        (ChartRenderer.calculateLayout config song).margins.top +
        (ChartRenderer.calculateLayout config song).margins.bottom +
        config.spacing * 2 := by
  refine ⟨by simp [ChartRenderer.calculateLayout]; ring, ?_, ?_, ?_, ?_, ?_⟩
  · simp [ChartRenderer.calculateLayout]; ring
  · simp [ChartRenderer.calculateLayout]
  · simp [ChartRenderer.calculateLayout]
  · simp only [ChartRenderer.calculateLayout, ← maxNotesPerLineOf_spec]
  · simp [ChartRenderer.calculateLayout]

/-- C6 counterexample: growing the maximum note count per line (1 to 2, all
else fixed) leaves `totalHeight` unchanged, so `totalHeight` does not
strictly increase with the note count. -/
theorem C6_counterexample :
    maxNotesPerLineOf (mkSong [["F"]]) < maxNotesPerLineOf (mkSong [["F", "F"]]) ∧
    (ChartRenderer.calculateLayout demoConfig (mkSong [["F"]])).totalHeight =
      (ChartRenderer.calculateLayout demoConfig (mkSong [["F", "F"]])).totalHeight := by
  constructor
  · norm_num [maxNotesPerLineOf, jsMathMax, mkSong]
  · norm_num [ChartRenderer.calculateLayout, maxNotesPerLineOf, jsMathMax,
      mkSong, demoConfig]

/-- C6 (amended): `calculateLayout` is deterministic; `totalWidth` and
`totalHeight` strictly increase with `holeRadius` (for `totalWidth` provided
the song has a line with at least one note); `totalWidth` strictly increases
with the maximum note count per line provided `holeRadius` is positive and
`spacing` non-negative; and `totalHeight` is independent of the note count
per line — it depends only on the number of lines. -/
theorem C6_amended (cfg : ChartConfig) (s₁ s₂ : Song) (r₁ r₂ : ℚ) :
    ChartRenderer.calculateLayout cfg s₁ = ChartRenderer.calculateLayout cfg s₁ ∧
    (r₁ < r₂ → 1 ≤ maxNotesPerLineOf s₁ →
      (ChartRenderer.calculateLayout { cfg with holeRadius := r₁ } s₁).totalWidth <
        (ChartRenderer.calculateLayout { cfg with holeRadius := r₂ } s₁).totalWidth) ∧
    (r₁ < r₂ →
      (ChartRenderer.calculateLayout { cfg with holeRadius := r₁ } s₁).totalHeight <
        (ChartRenderer.calculateLayout { cfg with holeRadius := r₂ } s₁).totalHeight) ∧
    (0 < cfg.holeRadius → 0 ≤ cfg.spacing →
      maxNotesPerLineOf s₁ < maxNotesPerLineOf s₂ →
      (ChartRenderer.calculateLayout cfg s₁).totalWidth <
        (ChartRenderer.calculateLayout cfg s₂).totalWidth) ∧
    (s₁.lines.length = s₂.lines.length →
      (ChartRenderer.calculateLayout cfg s₁).totalHeight =
        (ChartRenderer.calculateLayout cfg s₂).totalHeight) := by
  refine ⟨rfl, ?_, ?_, ?_, ?_⟩
  · intro hr hm
    simp only [ChartRenderer.calculateLayout]
    nlinarith [hm, hr]
  · intro hr
    have hM : (1 : ℚ) ≤ max (s₁.lines.length : ℚ) 1 := le_max_right _ _
    simp only [ChartRenderer.calculateLayout]
    nlinarith [hM, hr]
  · intro hr hs hm
    simp only [ChartRenderer.calculateLayout]
    have hc : (0 : ℚ) < cfg.holeRadius * 2 * 2 + cfg.spacing + cfg.spacing * 2 := by
      nlinarith
    nlinarith [mul_lt_mul_of_pos_right hm hc]
  · intro hlen
    simp only [ChartRenderer.calculateLayout, hlen]

/-- C6 amended witness: all monotonicity clauses instantiated at concrete
songs and radii. -/
theorem C6_amended_witness :
    ((ChartRenderer.calculateLayout { demoConfig with holeRadius := 1 } (mkSong [["F"]])).totalWidth <
      (ChartRenderer.calculateLayout { demoConfig with holeRadius := 2 } (mkSong [["F"]])).totalWidth) ∧
    ((ChartRenderer.calculateLayout { demoConfig with holeRadius := 1 } (mkSong [["F"]])).totalHeight <
      (ChartRenderer.calculateLayout { demoConfig with holeRadius := 2 } (mkSong [["F"]])).totalHeight) ∧
    ((ChartRenderer.calculateLayout demoConfig (mkSong [["F"]])).totalWidth <
      (ChartRenderer.calculateLayout demoConfig (mkSong [["F", "F"]])).totalWidth) ∧
    ((ChartRenderer.calculateLayout demoConfig (mkSong [["F"]])).totalHeight =
      (ChartRenderer.calculateLayout demoConfig (mkSong [["F", "F"]])).totalHeight) := by
  have h := C6_amended demoConfig (mkSong [["F"]]) (mkSong [["F", "F"]]) 1 2
  refine ⟨h.2.1 (by norm_num) ?_, h.2.2.1 (by norm_num), h.2.2.2.1 ?_ ?_ ?_, h.2.2.2.2 rfl⟩
  · norm_num [maxNotesPerLineOf, jsMathMax, mkSong]
  · norm_num [demoConfig]
  · norm_num [demoConfig]
  · norm_num [maxNotesPerLineOf, jsMathMax, mkSong]

/-! ## Fingering-engine suggestion lemmas and theorems (C7) -/

/-- `getSuggestions` as an explicit case split: the `"Bb"` hint (for any
token lowercasing to `"b"`) and the adjacency-table row (for an exact match)
are concatenated, with the full supported list as fallback. -/
theorem getSuggestions_cases (t : String) :
    FingeringEngine.getSuggestions t =
      (if ((if jsToLowerStr t = "b" then ["Bb"] else []) ++
          (if t = "B" then ["Bb", "A", "C"]
           else if t = "Db" then ["D", "C"]
           else if t = "Eb" then ["E", "D"]
           else if t = "Gb" then ["G", "F"]
           else if t = "Ab" then ["A", "G"]
           else [])) = [] then SUPPORTED_NOTES
       else ((if jsToLowerStr t = "b" then ["Bb"] else []) ++
          (if t = "B" then ["Bb", "A", "C"]
           else if t = "Db" then ["D", "C"]
           else if t = "Eb" then ["E", "D"]
           else if t = "Gb" then ["G", "F"]
           else if t = "Ab" then ["A", "G"]
           else []))) := by
  by_cases h1 : t = "B"
  · subst h1; decide
  by_cases h2 : t = "Db"
  · subst h2; decide
  by_cases h3 : t = "Eb"
  · subst h3; decide
  by_cases h4 : t = "Gb"
  · subst h4; decide
  by_cases h5 : t = "Ab"
  · subst h5; decide
  have e1 : (t == "B") = false := beq_eq_false_iff_ne.mpr h1
  have e2 : (t == "Db") = false := beq_eq_false_iff_ne.mpr h2
  have e3 : (t == "Eb") = false := beq_eq_false_iff_ne.mpr h3
  have e4 : (t == "Gb") = false := beq_eq_false_iff_ne.mpr h4
  have e5 : (t == "Ab") = false := beq_eq_false_iff_ne.mpr h5
  simp only [FingeringEngine.getSuggestions, fingeringNoteMap, List.lookup,
    e1, e2, e3, e4, e5, if_neg h1, if_neg h2, if_neg h3, if_neg h4, if_neg h5]

/-- The loop of `validateNotes` enumerated: one error per unsupported
position, carrying that position. -/
theorem validateNotesAux_enumFrom (notes : List String) : ∀ (i : Nat),
    FingeringEngine.validateNotesAux notes i =
      (List.enumFrom i notes).filterMap fun p =>
        if FingeringEngine.isSupported (jsTrim p.2) then none
        else some
          { type := ErrorType.UNSUPPORTED_NOTE,
            message := "Note \"" ++ p.2 ++ "\" is not supported by 4-hole ocarina",
            position := some p.1,
            suggestions := some (FingeringEngine.getSuggestions (jsTrim p.2)) } := by
  induction notes with
  | nil => intro i; rfl
  | cons note rest ih =>
    intro i
    simp only [FingeringEngine.validateNotesAux, List.enumFrom, List.filterMap_cons]
    by_cases h : FingeringEngine.isSupported (jsTrim note) = true
    · simp [h, ih]
    · simp only [Bool.not_eq_true] at h
      simp [h, ih]

/-- C7 counterexample: for the raw token `"B"` (which case-insensitively is
`"B"`), the emitted suggestions are `["Bb", "Bb", "A", "C"]` — the case hint
and the adjacency row are concatenated — not `["Bb"]` as the claim states. -/
theorem C7_counterexample :
    (FingeringEngine.validateNotes ["B"]).errors.map
        (fun e => (e.position, e.suggestions)) =
      [(some 0, some ["Bb", "Bb", "A", "C"])] ∧
    (["Bb", "Bb", "A", "C"] : List String) ≠ ["Bb"] := by
  decide

/-- C7 (amended): `validateNotes` emits exactly one `UnsupportedNote` error
per unsupported position, whose `position` field is the 0-based index in the
input array, and whose suggestions are the concatenation of `["Bb"]` (when
the trimmed token lowercases to `"b"`) and the adjacency row
`B→[Bb,A,C], Db→[D,C], Eb→[E,D], Gb→[G,F], Ab→[A,G]` (when the trimmed token
matches exactly), with all 7 supported names when both parts are empty; in
particular the exact token `"B"` gets `["Bb", "Bb", "A", "C"]`. -/
theorem C7_amended (notes : List String) :
    (FingeringEngine.validateNotes notes).errors =
      notes.enum.filterMap fun p =>
        if FingeringEngine.isSupported (jsTrim p.2) then none
        else some
          { type := ErrorType.UNSUPPORTED_NOTE,
            message := "Note \"" ++ p.2 ++ "\" is not supported by 4-hole ocarina",
            position := some p.1,
            suggestions := some
              (if ((if jsToLowerStr (jsTrim p.2) = "b" then ["Bb"] else []) ++
                  (if jsTrim p.2 = "B" then ["Bb", "A", "C"]
                   else if jsTrim p.2 = "Db" then ["D", "C"]
                   else if jsTrim p.2 = "Eb" then ["E", "D"]
                   else if jsTrim p.2 = "Gb" then ["G", "F"]
                   else if jsTrim p.2 = "Ab" then ["A", "G"]
                   else [])) = [] then SUPPORTED_NOTES
               else ((if jsToLowerStr (jsTrim p.2) = "b" then ["Bb"] else []) ++
                  (if jsTrim p.2 = "B" then ["Bb", "A", "C"]
                   else if jsTrim p.2 = "Db" then ["D", "C"]
                   else if jsTrim p.2 = "Eb" then ["E", "D"]
                   else if jsTrim p.2 = "Gb" then ["G", "F"]
                   else if jsTrim p.2 = "Ab" then ["A", "G"]
                   else []))) } := by
  show FingeringEngine.validateNotesAux notes 0 = _
  rw [validateNotesAux_enumFrom, List.enum]
  congr 1
  funext p
  rw [getSuggestions_cases]

/-! ## Export filename theorems (C8) -/

/-- C8 counterexample: at the instant `2026-10-12T08:15:30.000Z`, the
generated filename is `my-song-20261012t081530.png`; the segment between the
slug and `.png` is `20261012t081530`, which is not numeric (it retains the
lowercased ISO `T` separator), so the filename does not follow
`<slug>-<YYYYMMDDHHMMSS>.png`. -/
theorem C8_counterexample :
    ChartRenderer.generateFilename "My Song!" "2026-10-12T08:15:30.000Z" =
      "my-song-20261012t081530.png" ∧
    (("my-song-20261012t081530.png".drop 8).dropRight 4) = "20261012t081530" ∧
    "20261012t081530".data.all Char.isDigit = false := by
  decide

/-- C8 (amended): `generateFilename "My Song!"` yields
`my-song-<timestamp>.png` and a special-characters-only title falls back to
`ocarina-chart-<timestamp>.png`, where `<timestamp>` is the first 19
characters of the ISO-8601 instant with `-` and `:` removed and lowercased —
the shape `yyyymmdd` + a literal `t` + `hhmmss`, not a purely numeric
`YYYYMMDDHHMMSS`. -/
theorem C8_amended (isoNow : String) :
    ChartRenderer.generateFilename "My Song!" isoNow =
      "my-song-" ++
        (⟨((isoNow.data.take 19).filter fun c => !(c = ':' || c = '-')).map
          Char.toLower⟩ : String) ++ ".png" ∧
    ChartRenderer.generateFilename "@#$%" isoNow =
      "ocarina-chart-" ++
        (⟨((isoNow.data.take 19).filter fun c => !(c = ':' || c = '-')).map
          Char.toLower⟩ : String) ++ ".png" := by
  constructor <;> rfl

/-! ## Tokenization lemmas and theorems (C9) -/

/-- The notes component of `convertNotes` is the elementwise conversion. -/
theorem convertNotes_fst (cfg : ParseConfig) : ∀ (ns : List String),
    (NoteParser.convertNotes cfg ns).1 = ns.map (NoteParser.noteConvertOne cfg) := by
  intro ns
  induction ns with
  | nil => rfl
  | cons note rest ih =>
    simp only [NoteParser.convertNotes, NoteParser.noteConvertOne, List.map_cons]
    by_cases h : jsToUpperStr note = "B" ∧ cfg.autoConvertB = true
    · simp [h, ih]
    · simp [h, ih]

/-- C9: the warning-detection pass and the final parsing pass use the same
tokenization; `"F,G|A-Bb"` and `"F G A Bb"` tokenize to the identical
sequence `["F","G","A","Bb"]` (any run of space, comma, pipe or hyphen is a
single separator); and the parsed notes are the positionwise
conversion+normalization of exactly those tokens. -/
theorem C9_tokenization :
    (∀ line : String,
      NoteParser.validationTokens line = NoteParser.rawNoteTokens line) ∧
    NoteParser.rawNoteTokens "F,G|A-Bb" = ["F", "G", "A", "Bb"] ∧
    NoteParser.rawNoteTokens "F G A Bb" = ["F", "G", "A", "Bb"] ∧
    (∀ (cfg : ParseConfig) (line : String),
      NoteParser.parseNotesFromLine cfg line =
        ((NoteParser.validationTokens line).map
          (NoteParser.noteConvertOne cfg)).map NoteParser.normalizeNoteToken) := by
  refine ⟨fun line => rfl, by decide, by decide, fun cfg line => ?_⟩
  simp only [NoteParser.parseNotesFromLine, convertNotes_fst]
  rfl

/-! ## Character and string lemmas -/

/-- `Char.ofNat` of a valid codepoint round-trips through `toNat`. -/
theorem char_toNat_ofNat_valid {n : Nat} (h : n.isValidChar) :
    (Char.ofNat n).toNat = n := by
  unfold Char.ofNat
  rw [dif_pos h]
  rfl

/-- Characters with equal codepoints are equal. -/
theorem char_eq_of_toNat_eq {a b : Char} (h : a.toNat = b.toNat) : a = b := by
  apply Char.eq_of_val_eq
  apply UInt32.eq_of_toBitVec_eq
  exact BitVec.eq_of_toNat_eq h

/-- A character whose lowercase form is `'b'` has uppercase form `'B'`. -/
theorem toUpper_eq_B_of_toLower_eq_b {c : Char} (h : Char.toLower c = 'b') :
    Char.toUpper c = 'B' := by
  unfold Char.toLower at h
  simp only at h
  by_cases hc : c.toNat ≥ 65 ∧ c.toNat ≤ 90
  · rw [if_pos hc] at h
    have hv : (c.toNat + 32).isValidChar := by left; omega
    have h2 : (Char.ofNat (c.toNat + 32)).toNat = c.toNat + 32 :=
      char_toNat_ofNat_valid hv
    have h3 : c.toNat + 32 = ('b' : Char).toNat := by rw [← h2, h]
    have h4 : c.toNat = ('B' : Char).toNat := by
      have hb : ('b' : Char).toNat = 98 := by decide
      have hB : ('B' : Char).toNat = 66 := by decide
      omega
    rw [char_eq_of_toNat_eq h4]
    decide
  · rw [if_neg hc] at h
    subst h
    decide

/-- `contains` on a list of strings is membership. -/
theorem contains_iff_mem (x : String) (l : List String) :
    l.contains x = true ↔ x ∈ l := by
  simp [List.contains_eq_any_beq]

/-- If the characterwise uppercase of `v` is `"B"`, then `v` is a single
character that uppercases to `'B'`. -/
theorem jsToUpperStr_eq_B {v : String} (h : jsToUpperStr v = "B") :
    ∃ c, v.data = [c] ∧ Char.toUpper c = 'B' := by
  have hd : v.data.map Char.toUpper = ['B'] := by
    have := congrArg String.data h
    simpa [jsToUpperStr] using this
  cases hv : v.data with
  | nil => rw [hv] at hd; simp at hd
  | cons c rest =>
    rw [hv] at hd
    simp only [List.map_cons, List.cons.injEq] at hd
    obtain ⟨h1, h2⟩ := hd
    have : rest = [] := List.map_eq_nil_iff.mp h2
    exact ⟨c, by rw [this], h1⟩

/-- The trimmed character list is empty exactly when every character is
whitespace. -/
theorem jsTrimList_eq_nil_iff (l : List Char) :
    jsTrimList l = [] ↔ ∀ c ∈ l, jsWhitespace c = true := by
  unfold jsTrimList
  rw [List.reverse_eq_nil_iff, List.dropWhile_eq_nil_iff]
  constructor
  · intro h c hc
    have h2 : ∀ x ∈ l.dropWhile jsWhitespace, jsWhitespace x = true := by
      intro x hx
      exact h x (List.mem_reverse.mpr hx)
    rcases List.mem_append.mp
        ((List.takeWhile_append_dropWhile jsWhitespace l) ▸ hc) with h4 | h4
    · exact List.mem_takeWhile_imp h4
    · exact h2 c h4
  · intro h x hx
    exact h x (List.dropWhile_sublist _ |>.mem (List.mem_reverse.mp hx))

/-! ## C3 theorem -/

/-- C3: `parseSong` returns a `Song` exactly when `validateInput` reports the
input valid; otherwise it fails with a parsing-failed condition whose message
carries the joined messages of all collected validation errors (so no
partially valid `Song` is ever produced). -/
theorem C3_parse_gate (cfg : ParseConfig) (input : String) :
    ((∃ song, NoteParser.parseSong cfg input = Except.ok song) ↔
      (NoteParser.validateInput cfg input).isValid = true) ∧
    ((NoteParser.validateInput cfg input).isValid = false →
      NoteParser.parseSong cfg input = Except.error ("Parsing failed: " ++
        String.intercalate ", "
          ((NoteParser.validateInput cfg input).errors.map fun e => e.message))) := by
  unfold NoteParser.parseSong
  by_cases h : (NoteParser.validateInput cfg input).isValid = true
  · simp [h]
  · simp only [Bool.not_eq_true] at h
    simp [h]

/-- C3 witness: a 1-line input is rejected with the aggregated message; a
valid 2-line input parses. -/
theorem C3_parse_gate_witness :
    NoteParser.parseSong DEFAULT_CONFIG "x" = Except.error ("Parsing failed: " ++
      String.intercalate ", "
        ((NoteParser.validateInput DEFAULT_CONFIG "x").errors.map fun e => e.message)) ∧
    ∃ song, NoteParser.parseSong DEFAULT_CONFIG "Title\nF" = Except.ok song :=
  ⟨(C3_parse_gate DEFAULT_CONFIG "x").2 (by decide),
   (C3_parse_gate DEFAULT_CONFIG "Title\nF").1.mpr (by decide)⟩

/-! ## Parser token lemmas (C2, C4) -/

/-- `validateNote` collects no error exactly when the normalized note is
supported or the token is a `B` under auto-conversion. -/
theorem validateNote_errors_nil_iff (cfg : ParseConfig) (note : String)
    (n p : Nat) :
    (NoteParser.validateNote cfg note n p).errors = [] ↔
      (NoteParser.normalizeFirstUpper note ∈ SUPPORTED_NOTES ∨
        (jsToUpperStr note = "B" ∧ cfg.autoConvertB = true)) := by
  unfold NoteParser.validateNote
  by_cases h1 : SUPPORTED_NOTES.contains (NoteParser.normalizeFirstUpper note) = true
  · simp [h1, (contains_iff_mem _ _).mp h1]
  · have h1m : ¬(NoteParser.normalizeFirstUpper note ∈ SUPPORTED_NOTES) :=
      (contains_iff_mem _ _).not.mp h1
    by_cases h2 : jsToUpperStr note = "B"
    · by_cases h3 : cfg.autoConvertB = true
      · simp [h1, h1m, h2, h3]
      · simp only [Bool.not_eq_true] at h3
        simp [h1, h1m, h2, h3]
    · simp [h1, h1m, h2]

/-- A parse-normalized token whose `validateNote` normalization is supported
is itself a canonical supported name. -/
theorem normalizeNoteToken_supported (v : String)
    (hn : NoteParser.normalizeFirstUpper (NoteParser.normalizeNoteToken v) ∈
      SUPPORTED_NOTES) :
    NoteParser.normalizeNoteToken v ∈ SUPPORTED_NOTES := by
  unfold NoteParser.normalizeNoteToken at hn ⊢
  by_cases h1 : jsToUpperStr v = "BB"
  · rw [if_pos h1]
    decide
  · rw [if_neg h1] at hn ⊢
    by_cases h2 : SUPPORTED_NOTES.contains (jsToUpperStr v) = true
    · rw [if_pos h2] at hn ⊢
      exact (contains_iff_mem _ _).mp h2
    · rw [if_neg h2] at hn ⊢
      exfalso
      unfold NoteParser.normalizeFirstUpper at hn
      cases hv : v.data with
      | nil =>
        rw [hv] at hn
        simp [SUPPORTED_NOTES, String.ext_iff] at hn
      | cons c rest =>
        rw [hv] at hn
        have hup : jsToUpperStr v = ⟨Char.toUpper c :: rest.map Char.toUpper⟩ := by
          simp [jsToUpperStr, hv]
        simp only [SUPPORTED_NOTES, List.mem_cons, List.not_mem_nil,
          or_false, String.ext_iff] at hn
        rcases hn with h | h | h | h | h | h | h <;>
          simp only [List.cons.injEq] at h <;>
          obtain ⟨hc, hrest⟩ := h <;>
          try (have hrestnil : rest = [] := List.map_eq_nil_iff.mp hrest
               apply h2
               rw [hup, hrestnil]
               simp only [List.map_nil, hc]
               decide)
        -- remaining goal: the two-character name "Bb"
        rcases List.map_eq_cons_iff.mp hrest with ⟨c₂, rest₂, hr, hc₂, hrest₂⟩
        have hrest₂nil : rest₂ = [] := List.map_eq_nil_iff.mp hrest₂
        have hc₂up : Char.toUpper c₂ = 'B' := toUpper_eq_B_of_toLower_eq_b hc₂
        apply h1
        rw [hup, hr, hrest₂nil]
        simp only [List.map_cons, List.map_nil, hc, hc₂up]

/-- The parse normalization cannot create a `B` token from a non-`B`
token. -/
theorem normalizeNoteToken_upper_B {v : String}
    (h : jsToUpperStr (NoteParser.normalizeNoteToken v) = "B") :
    jsToUpperStr v = "B" := by
  unfold NoteParser.normalizeNoteToken at h
  by_cases h1 : jsToUpperStr v = "BB"
  · rw [if_pos h1] at h
    exact absurd h (by decide)
  · rw [if_neg h1] at h
    by_cases h2 : SUPPORTED_NOTES.contains (jsToUpperStr v) = true
    · rw [if_pos h2] at h
      exfalso
      have hm := (contains_iff_mem _ _).mp h2
      simp only [SUPPORTED_NOTES, List.mem_cons, List.not_mem_nil, or_false] at hm
      rcases hm with hm | hm | hm | hm | hm | hm | hm
      all_goals rw [hm] at h
      all_goals revert h
      all_goals decide
    · rwa [if_neg h2] at h

/-- With auto-conversion on, `convertNotes` never outputs a `B` token. -/
theorem noteConvertOne_not_B_of_auto (cfg : ParseConfig)
    (hauto : cfg.autoConvertB = true) (tok : String)
    (h : jsToUpperStr (NoteParser.noteConvertOne cfg tok) = "B") : False := by
  unfold NoteParser.noteConvertOne at h
  by_cases hc : jsToUpperStr tok = "B" ∧ cfg.autoConvertB = true
  · rw [if_pos hc] at h
    exact absurd h (by decide)
  · rw [if_neg hc] at h
    exact hc ⟨h, hauto⟩

/-- A token of the final parsing pass that `validateNote` accepts without
error is one of the 7 canonical names. -/
theorem parsed_token_supported (cfg : ParseConfig) (tok : String) (n p : Nat)
    (hnil : (NoteParser.validateNote cfg
      (NoteParser.normalizeNoteToken (NoteParser.noteConvertOne cfg tok)) n p).errors = []) :
    NoteParser.normalizeNoteToken (NoteParser.noteConvertOne cfg tok) ∈
      SUPPORTED_NOTES := by
  rcases (validateNote_errors_nil_iff cfg _ n p).mp hnil with h | ⟨hB, hauto⟩
  · exact normalizeNoteToken_supported _ h
  · exact absurd (normalizeNoteToken_upper_B hB)
      (fun h2 => noteConvertOne_not_B_of_auto cfg hauto tok h2)

/-- The per-note loop collects no error only if each note individually
validates without error at its position. -/
theorem validateNotesInLine_errors_nil (cfg : ParseConfig) :
    ∀ (ns : List String) (n p : Nat),
      (NoteParser.validateNotesInLine cfg ns n p).1 = [] →
      ∀ note ∈ ns, ∃ q, (NoteParser.validateNote cfg note n q).errors = [] := by
  intro ns
  induction ns with
  | nil => intro n p _ note hmem; exact absurd hmem (List.not_mem_nil note)
  | cons note rest ih =>
    intro n p hnil note₂ hmem
    simp only [NoteParser.validateNotesInLine] at hnil
    rcases List.append_eq_nil.mp hnil with ⟨hhead, htail⟩
    rcases List.mem_cons.mp hmem with h | h
    · exact ⟨p, h ▸ hhead⟩
    · exact ih n (p + 1) htail note₂ h

/-- Every note parsed from a line whose validation collected no error is a
canonical supported name. -/
theorem validateNoteLine_notes_supported (cfg : ParseConfig) (line : String)
    (n : Nat) (hnb : ¬((jsTrim line).length = 0))
    (hnil : (NoteParser.validateNoteLine cfg line n).errors = []) :
    ∀ note ∈ NoteParser.parseNotesFromLine cfg line, note ∈ SUPPORTED_NOTES := by
  intro note hmem
  rw [NoteParser.validateNoteLine, if_neg hnb] at hnil
  simp only at hnil
  rcases List.append_eq_nil.mp hnil with ⟨_, hper⟩
  have hq := validateNotesInLine_errors_nil cfg _ n 1 hper note hmem
  obtain ⟨q, hq⟩ := hq
  rw [NoteParser.parseNotesFromLine, convertNotes_fst] at hmem
  simp only [List.map_map, List.mem_map] at hmem
  obtain ⟨tok, _, htok⟩ := hmem
  rw [← htok] at hq ⊢
  exact parsed_token_supported cfg tok n q hq

/-- Note lines assembled from individually valid lines contain only canonical
notes, and no entry is empty. -/
theorem parseNoteLines_sound (cfg : ParseConfig) :
    ∀ (ls : List String),
      (∀ line ∈ ls, ∃ m, (NoteParser.validateNoteLine cfg line m).errors = []) →
      ∀ ln ∈ NoteParser.parseNoteLines cfg ls,
        ln ≠ [] ∧ ∀ note ∈ ln, note ∈ SUPPORTED_NOTES := by
  intro ls
  induction ls with
  | nil => intro _ ln hmem; exact absurd hmem (List.not_mem_nil ln)
  | cons line rest ih =>
    intro hval ln hmem
    have hrest : ∀ l ∈ rest, ∃ m, (NoteParser.validateNoteLine cfg l m).errors = [] :=
      fun l hl => hval l (List.mem_cons_of_mem line hl)
    simp only [NoteParser.parseNoteLines] at hmem
    by_cases hb : (jsTrim line).length = 0
    · rw [if_pos hb] at hmem
      exact ih hrest ln hmem
    · rw [if_neg hb] at hmem
      by_cases hlen : (NoteParser.parseNotesFromLine cfg line).length > 0
      · rw [if_pos hlen] at hmem
        rcases List.mem_cons.mp hmem with h | h
        · subst h
          refine ⟨fun hnil2 => by simp [hnil2] at hlen, ?_⟩
          obtain ⟨m, hm⟩ := hval line (List.mem_cons_self line rest)
          exact validateNoteLine_notes_supported cfg line m hb hm
        · exact ih hrest ln h
      · rw [if_neg hlen] at hmem
        exact ih hrest ln hmem

/-- If the per-line loop of `validateInput` collects no error, every line
validates without error at some line number. -/
theorem validateLines_errors_nil (cfg : ParseConfig) :
    ∀ (ls : List String) (k : Nat),
      (NoteParser.validateLines cfg ls k).1 = [] →
      ∀ line ∈ ls, ∃ m, (NoteParser.validateNoteLine cfg line m).errors = [] := by
  intro ls
  induction ls with
  | nil => intro k _ line hmem; exact absurd hmem (List.not_mem_nil line)
  | cons line rest ih =>
    intro k hnil line₂ hmem
    simp only [NoteParser.validateLines] at hnil
    rcases List.append_eq_nil.mp hnil with ⟨hhead, htail⟩
    rcases List.mem_cons.mp hmem with h | h
    · exact ⟨k, h ▸ hhead⟩
    · exact ih (k + 1) htail line₂ h

/-- A valid input has an error-free per-line validation. -/
theorem validateInput_perline_nil (cfg : ParseConfig) (input : String)
    (hvalid : (NoteParser.validateInput cfg input).isValid = true) :
    (NoteParser.validateLines cfg ((NoteParser.preprocessInput input).drop 1) 2).1 = [] := by
  unfold NoteParser.validateInput at hvalid
  by_cases he : (jsTrim input).length = 0
  · rw [if_pos he] at hvalid
    exact absurd hvalid (by decide)
  · rw [if_neg he] at hvalid
    simp only [beq_iff_eq, List.length_eq_zero] at hvalid
    rcases List.append_eq_nil.mp hvalid with ⟨_, h2⟩
    exact h2

/-! ## Title lemmas and C2 -/

/-- `extractTitle` never returns the empty string. -/
theorem extractTitle_ne_empty : ∀ (ls : List String),
    NoteParser.extractTitle ls ≠ "" := by
  intro ls
  cases ls with
  | nil => decide
  | cons first rest =>
    simp only [NoteParser.extractTitle]
    by_cases h : (jsTrim first).length = 0
    · rw [if_pos h]; decide
    · rw [if_neg h]
      by_cases h2 : jsTrim (NoteParser.stripTitleTag (jsTrim first)) = ""
      · rw [if_pos h2]; decide
      · rw [if_neg h2]; exact h2

/-- `extractTitle` falls back to the default title when the title line is
blank or reduces to blank after prefix stripping. -/
theorem extractTitle_default (first : String) (rest : List String)
    (h : jsTrim first = "" ∨
      jsTrim (NoteParser.stripTitleTag (jsTrim first)) = "") :
    NoteParser.extractTitle (first :: rest) = "Untitled Song" := by
  simp only [NoteParser.extractTitle]
  rcases h with h | h
  · rw [if_pos (by rw [h]; rfl)]
  · by_cases hb : (jsTrim first).length = 0
    · rw [if_pos hb]
    · rw [if_neg hb, if_pos h]

/-- C2: on every input that `validateInput` accepts, `parseSong` returns a
`Song` in which every note is one of the 7 canonical names, no line entry is
empty, and the title is non-empty, defaulting to `"Untitled Song"` when the
title line is blank or reduces to blank after prefix stripping. -/
theorem C2_song_invariants (cfg : ParseConfig) (input : String)
    (hvalid : (NoteParser.validateInput cfg input).isValid = true) :
    ∃ song, NoteParser.parseSong cfg input = Except.ok song ∧
      (∀ ln ∈ song.lines, ln ≠ [] ∧ ∀ note ∈ ln, note ∈ SUPPORTED_NOTES) ∧
      song.title ≠ "" ∧
      ((jsTrim ((NoteParser.preprocessInput input).headD "") = "" ∨
         jsTrim (NoteParser.stripTitleTag
           (jsTrim ((NoteParser.preprocessInput input).headD ""))) = "") →
        song.title = "Untitled Song") := by
  refine ⟨⟨NoteParser.extractTitle (NoteParser.preprocessInput input),
           NoteParser.parseNoteLines cfg ((NoteParser.preprocessInput input).drop 1),
           input,
           (NoteParser.parseNoteLines cfg
             ((NoteParser.preprocessInput input).drop 1)).flatten.length⟩,
         ?_, ?_, ?_, ?_⟩
  · simp [NoteParser.parseSong, hvalid]
  · intro ln hmem
    exact parseNoteLines_sound cfg _
      (validateLines_errors_nil cfg _ 2 (validateInput_perline_nil cfg input hvalid))
      ln hmem
  · exact extractTitle_ne_empty _
  · intro hcond
    show NoteParser.extractTitle (NoteParser.preprocessInput input) = "Untitled Song"
    cases hls : NoteParser.preprocessInput input with
    | nil => rfl
    | cons first rest =>
      rw [hls] at hcond
      simp only [List.headD_cons] at hcond
      exact extractTitle_default first rest hcond

/-- C2 witness at a concrete valid input. -/
theorem C2_song_invariants_witness :
    ∃ song, NoteParser.parseSong DEFAULT_CONFIG "Title\nF G A" = Except.ok song ∧
      (∀ ln ∈ song.lines, ln ≠ [] ∧ ∀ note ∈ ln, note ∈ SUPPORTED_NOTES) ∧
      song.title ≠ "" ∧
      ((jsTrim ((NoteParser.preprocessInput "Title\nF G A").headD "") = "" ∨
         jsTrim (NoteParser.stripTitleTag
           (jsTrim ((NoteParser.preprocessInput "Title\nF G A").headD ""))) = "") →
        song.title = "Untitled Song") :=
  C2_song_invariants DEFAULT_CONFIG "Title\nF G A" (by decide)

/-! ## Warning/error bookkeeping lemmas (C4) -/

/-- Every error emitted by `validateNote` is an `UnsupportedNote` error at
the given line and position. -/
theorem validateNote_error_fields (cfg : ParseConfig) (note : String)
    (n p : Nat) :
    ∀ e ∈ (NoteParser.validateNote cfg note n p).errors,
      e.type = ErrorType.UNSUPPORTED_NOTE ∧ e.line = some n ∧
        e.position = some p := by
  intro e he
  simp only [NoteParser.validateNote] at he
  split at he
  · simp at he
  · split at he
    · split at he
      · simp at he
      · simp only [List.mem_singleton] at he
        subst he
        exact ⟨rfl, rfl, rfl⟩
    · simp only [List.mem_singleton] at he
      subst he
      exact ⟨rfl, rfl, rfl⟩

/-- Every warning emitted by `validateNote` is a `NoteConversion` warning. -/
theorem validateNote_warnings_conv (cfg : ParseConfig) (note : String)
    (n p : Nat) :
    ∀ w ∈ (NoteParser.validateNote cfg note n p).warnings,
      w.type = WarningType.NOTE_CONVERSION := by
  intro w hw
  simp only [NoteParser.validateNote] at hw
  split at hw
  · simp at hw
  · split at hw
    · split at hw
      · simp only [List.mem_singleton] at hw
        subst hw
        rfl
      · simp at hw
    · simp at hw

/-- `validateNote` accepts the canonical token `"Bb"`. -/
theorem validateNote_Bb_nil (cfg : ParseConfig) (n p : Nat) :
    (NoteParser.validateNote cfg "Bb" n p).errors = [] := by
  unfold NoteParser.validateNote
  have hm : NoteParser.normalizeFirstUpper "Bb" ∈ SUPPORTED_NOTES := by decide
  simp [hm]

/-- The second loop of `validateNoteLine` never keeps a warning (it filters
out the only kind `validateNote` produces). -/
theorem validateNotesInLine_warnings_nil (cfg : ParseConfig) :
    ∀ (ns : List String) (n p : Nat),
      (NoteParser.validateNotesInLine cfg ns n p).2 = [] := by
  intro ns
  induction ns with
  | nil => intro n p; rfl
  | cons hd tl ih =>
    intro n p
    simp only [NoteParser.validateNotesInLine, ih]
    rw [List.append_nil, List.filter_eq_nil_iff]
    intro w hw
    have := validateNote_warnings_conv cfg hd n p w hw
    simp [this]

/-- Membership introduction for the per-note error loop. -/
theorem validateNotesInLine_errors_mem (cfg : ParseConfig) :
    ∀ (ns : List String) (n p i : Nat) (tok : String),
      ns[i]? = some tok →
      ∀ e ∈ (NoteParser.validateNote cfg tok n (p + i)).errors,
        e ∈ (NoteParser.validateNotesInLine cfg ns n p).1 := by
  intro ns
  induction ns with
  | nil => intro n p i tok h; simp at h
  | cons hd tl ih =>
    intro n p i tok htok e he
    simp only [NoteParser.validateNotesInLine]
    rw [List.mem_append]
    cases i with
    | zero =>
      simp only [List.getElem?_cons_zero, Option.some.injEq] at htok
      subst htok
      rw [Nat.add_zero] at he
      exact Or.inl he
    | succ j =>
      right
      have htl : tl[j]? = some tok := by simpa using htok
      have he2 : e ∈ (NoteParser.validateNote cfg tok n ((p + 1) + j)).errors := by
        rw [show (p + 1) + j = p + (j + 1) by omega]
        exact he
      exact ih n (p + 1) j tok htl e he2

/-- Membership elimination for the per-note error loop. -/
theorem validateNotesInLine_errors_elim (cfg : ParseConfig) :
    ∀ (ns : List String) (n p : Nat) (e : ValidationError),
      e ∈ (NoteParser.validateNotesInLine cfg ns n p).1 →
      ∃ i tok, ns[i]? = some tok ∧
        e ∈ (NoteParser.validateNote cfg tok n (p + i)).errors := by
  intro ns
  induction ns with
  | nil => intro n p e he; simp [NoteParser.validateNotesInLine] at he
  | cons hd tl ih =>
    intro n p e he
    simp only [NoteParser.validateNotesInLine] at he
    rcases List.mem_append.mp he with h | h
    · exact ⟨0, hd, by simp, by rw [Nat.add_zero]; exact h⟩
    · obtain ⟨j, tok, htok, he2⟩ := ih n (p + 1) e h
      refine ⟨j + 1, tok, by simpa using htok, ?_⟩
      rw [show p + (j + 1) = (p + 1) + j by omega]
      exact he2

/-- Position bookkeeping for the `B`-conversion warning loop. -/
theorem bConversionWarnings_mem (cfg : ParseConfig) :
    ∀ (toks : List String) (n p : Nat),
      ∀ w ∈ NoteParser.bConversionWarnings cfg toks n p,
        w.type = WarningType.NOTE_CONVERSION ∧ w.line = some n ∧
          ∃ j, j < toks.length ∧ w.position = some (p + j) := by
  intro toks
  induction toks with
  | nil => intro n p w hw; simp [NoteParser.bConversionWarnings] at hw
  | cons hd tl ih =>
    intro n p w hw
    simp only [NoteParser.bConversionWarnings] at hw
    rcases List.mem_append.mp hw with h | h
    · split at h
      · simp only [List.mem_singleton] at h
        subst h
        exact ⟨rfl, rfl, 0, by simp, by rw [Nat.add_zero]⟩
      · simp at h
    · obtain ⟨h1, h2, j, hj, hpos⟩ := ih n (p + 1) w h
      refine ⟨h1, h2, j + 1, by simp; omega, ?_⟩
      rw [hpos]
      congr 1
      omega

/-- With auto-conversion on, the warning loop emits exactly one
`NoteConversion` warning at the (1-based) position of each raw `B` token. -/
theorem bConversionWarnings_countP (cfg : ParseConfig)
    (hauto : cfg.autoConvertB = true) :
    ∀ (toks : List String) (n p i : Nat) (tok : String),
      toks[i]? = some tok → jsToUpperStr tok = "B" →
      (NoteParser.bConversionWarnings cfg toks n p).countP
        (isConvWarnAt n (p + i)) = 1 := by
  intro toks
  induction toks with
  | nil => intro n p i tok h; simp at h
  | cons hd tl ih =>
    intro n p i tok htok hB
    simp only [NoteParser.bConversionWarnings]
    rw [List.countP_append]
    cases i with
    | zero =>
      simp only [List.getElem?_cons_zero, Option.some.injEq] at htok
      subst htok
      rw [Nat.add_zero, if_pos ⟨hB, hauto⟩]
      have htail :
          (NoteParser.bConversionWarnings cfg tl n (p + 1)).countP
            (isConvWarnAt n p) = 0 := by
        rw [List.countP_eq_zero]
        intro w hw
        obtain ⟨_, _, j, _, hpos⟩ := bConversionWarnings_mem cfg tl n (p + 1) w hw
        simp only [isConvWarnAt, hpos]
        simp
        omega
      rw [htail]
      simp [List.countP_cons, isConvWarnAt]
    | succ j =>
      have hhead :
          (if jsToUpperStr hd = "B" ∧ cfg.autoConvertB then
            [{ type := WarningType.NOTE_CONVERSION,
               message := "Note \x27B\x27 will be converted to \x27Bb\x27",
               line := some n, position := some p }]
           else ([] : List ValidationWarning)).countP
            (isConvWarnAt n (p + (j + 1))) = 0 := by
        split
        · simp only [List.countP_cons, List.countP_nil, isConvWarnAt]
          simp only [decide_eq_true_eq, Nat.zero_add]
          rw [if_neg]
          simp only [not_and]
          intro _ _
          simp only [Option.some.injEq]
          omega
        · rfl
      rw [hhead]
      have htl : tl[j]? = some tok := by simpa using htok
      rw [show p + (j + 1) = (p + 1) + j by omega]
      rw [ih n (p + 1) j tok htl hB]

/-- With auto-conversion off, the warning loop emits nothing. -/
theorem bConversionWarnings_nil (cfg : ParseConfig)
    (h : cfg.autoConvertB = false) :
    ∀ (toks : List String) (n p : Nat),
      NoteParser.bConversionWarnings cfg toks n p = [] := by
  intro toks
  induction toks with
  | nil => intro n p; rfl
  | cons hd tl ih =>
    intro n p
    simp only [NoteParser.bConversionWarnings]
    rw [if_neg (by simp [h]), List.nil_append]
    exact ih n (p + 1)

/-- Splitting an all-separator character list yields only empty fields. -/
theorem splitSeps_all_sep : ∀ (l : List Char),
    (∀ c ∈ l, sepChar c = true) →
    (∀ acc t, t ∈ splitSepsTok l acc → ∀ c ∈ t, c ∈ acc) ∧
    (∀ t, t ∈ splitSepsRun l → t = ([] : List Char)) := by
  intro l
  induction l with
  | nil =>
    intro _
    constructor
    · intro acc t ht c hc
      simp only [splitSepsTok, List.mem_singleton] at ht
      subst ht
      exact List.mem_reverse.mp hc
    · intro t ht
      simp only [splitSepsRun, List.mem_singleton] at ht
      exact ht
  | cons hd tl ih =>
    intro hall
    have hhd : sepChar hd = true := hall hd (List.mem_cons_self hd tl)
    have htl := ih fun c hc => hall c (List.mem_cons_of_mem hd hc)
    constructor
    · intro acc t ht c hc
      simp only [splitSepsTok, if_pos hhd] at ht
      rcases List.mem_cons.mp ht with h | h
      · subst h
        exact List.mem_reverse.mp hc
      · rw [htl.2 t h] at hc
        simp at hc
    · intro t ht
      simp only [splitSepsRun, if_pos hhd] at ht
      exact htl.2 t ht

/-- A blank line tokenizes to nothing. -/
theorem validationTokens_nil_of_trim_nil (line : String)
    (h : jsTrim line = "") :
    NoteParser.validationTokens line = [] := by
  have hws : ∀ c ∈ line.data, jsWhitespace c = true :=
    (jsTrimList_eq_nil_iff _).mp (congrArg String.data h)
  have hsep : ∀ c ∈ line.data, sepChar c = true := by
    intro c hc
    simp [sepChar, hws c hc]
  unfold NoteParser.validationTokens jsSplitSeps
  rw [List.filter_eq_nil_iff]
  intro s hs
  simp only [List.map_map, List.mem_map, Function.comp] at hs
  obtain ⟨t, ht, hts⟩ := hs
  have htnil : t = [] :=
    List.eq_nil_iff_forall_not_mem.mpr fun c hc =>
      absurd ((splitSeps_all_sep line.data hsep).1 [] t ht c hc)
        (List.not_mem_nil c)
  rw [htnil] at hts
  rw [← hts]
  decide

/-- C4: for every note line and token position whose raw token is
case-insensitively `"B"`: with `autoConvertB` on, `convertNotes` replaces it
with `"Bb"`, validation reports exactly one `NoteConversion` warning at that
line and 1-based token position and no `UnsupportedNote` error at that
position; with `autoConvertB` off, the token is left unchanged, there is no
warning at all, and validation reports an `UnsupportedNote` error there
suggesting the use of `Bb`. -/
theorem C4_b_conversion (cfg : ParseConfig) (line : String) (n i : Nat)
    (tok : String)
    (htok : (NoteParser.validationTokens line)[i]? = some tok)
    (hB : jsToUpperStr tok = "B") :
    (cfg.autoConvertB = true →
      (NoteParser.convertNotes cfg (NoteParser.validationTokens line)).1[i]? =
        some "Bb" ∧
      (NoteParser.validateNoteLine cfg line n).warnings.countP
        (isConvWarnAt n (i + 1)) = 1 ∧
      (∀ e ∈ (NoteParser.validateNoteLine cfg line n).errors,
        e.type = ErrorType.UNSUPPORTED_NOTE → e.position ≠ some (i + 1))) ∧
    (cfg.autoConvertB = false →
      (NoteParser.convertNotes cfg (NoteParser.validationTokens line)).1[i]? =
        some tok ∧
      (NoteParser.validateNoteLine cfg line n).warnings = [] ∧
      (∃ e ∈ (NoteParser.validateNoteLine cfg line n).errors,
        e.type = ErrorType.UNSUPPORTED_NOTE ∧ e.line = some n ∧
        e.position = some (i + 1) ∧
        e.suggestions =
          some ("Use Bb instead of B for 4-hole ocarinas" :: SUPPORTED_NOTES))) := by
  -- the line is not blank: it contains the token at index `i`
  have hnb : ¬((jsTrim line).length = 0) := by
    intro h0
    have hempty : jsTrim line = "" := by
      cases hd : (jsTrim line).data with
      | nil =>
        apply String.ext
        rw [hd]
      | cons c rest =>
        rw [show (jsTrim line).length = (jsTrim line).data.length from rfl, hd] at h0
        simp at h0
    rw [validationTokens_nil_of_trim_nil line hempty] at htok
    simp at htok
  -- the parsed token at index `i`
  have hparse : ∀ (c : ParseConfig),
      (NoteParser.parseNotesFromLine c line)[i]? =
        some (NoteParser.normalizeNoteToken (NoteParser.noteConvertOne c tok)) := by
    intro c
    have h1 : NoteParser.parseNotesFromLine c line =
        ((NoteParser.validationTokens line).map (NoteParser.noteConvertOne c)).map
          NoteParser.normalizeNoteToken := by
      simp only [NoteParser.parseNotesFromLine, convertNotes_fst]
      rfl
    rw [h1, List.getElem?_map, List.getElem?_map, htok]
    rfl
  constructor
  · -- auto-conversion on
    intro hauto
    have hconv : NoteParser.noteConvertOne cfg tok = "Bb" := by
      unfold NoteParser.noteConvertOne
      rw [if_pos ⟨hB, hauto⟩]
    refine ⟨?_, ?_, ?_⟩
    · rw [convertNotes_fst, List.getElem?_map, htok]
      simp [hconv]
    · rw [NoteParser.validateNoteLine, if_neg hnb]
      simp only [List.countP_append, validateNotesInLine_warnings_nil,
        List.countP_nil, Nat.add_zero]
      rw [Nat.add_comm i 1]
      exact bConversionWarnings_countP cfg hauto _ n 1 i tok htok hB
    · intro e he htype hpos
      rw [NoteParser.validateNoteLine, if_neg hnb] at he
      simp only at he
      rcases List.mem_append.mp he with h | h
      · -- the note-count error has no position
        split at h
        · simp only [List.mem_singleton] at h
          subst h
          simp at hpos
        · simp at h
      · obtain ⟨j, tok₂, htok₂, he₂⟩ :=
          validateNotesInLine_errors_elim cfg _ n 1 e h
        obtain ⟨_, _, hepos⟩ := validateNote_error_fields cfg tok₂ n (1 + j) e he₂
        have hji : j = i := by
          rw [hepos] at hpos
          simp at hpos
          omega
        subst hji
        rw [hparse cfg, Option.some.injEq] at htok₂
        rw [← htok₂, hconv] at he₂
        have : NoteParser.normalizeNoteToken "Bb" = "Bb" := by decide
        rw [this] at he₂
        rw [validateNote_Bb_nil cfg n (1 + j)] at he₂
        simp at he₂
  · -- auto-conversion off
    intro hauto
    have hconv : NoteParser.noteConvertOne cfg tok = tok := by
      unfold NoteParser.noteConvertOne
      rw [if_neg]
      intro hand
      rw [hauto] at hand
      exact absurd hand.2 (by decide)
    have hnorm : NoteParser.normalizeNoteToken tok = tok := by
      unfold NoteParser.normalizeNoteToken
      rw [if_neg (by rw [hB]; decide), if_neg (by rw [hB]; decide)]
    have hfu : NoteParser.normalizeFirstUpper tok = "B" := by
      obtain ⟨c, hc, hcu⟩ := jsToUpperStr_eq_B hB
      unfold NoteParser.normalizeFirstUpper
      rw [hc]
      simp [hcu]
    have hvn : (NoteParser.validateNote cfg tok n (1 + i)).errors =
        [{ type := ErrorType.UNSUPPORTED_NOTE,
           message := "Unsupported note \x27" ++ tok ++ "\x27 at line " ++
             toString n ++ ", position " ++ toString (1 + i),
           line := some n, position := some (1 + i),
           suggestions :=
             some ("Use Bb instead of B for 4-hole ocarinas" :: SUPPORTED_NOTES) }] := by
      simp only [NoteParser.validateNote, hfu]
      rw [if_neg (by decide : ¬(SUPPORTED_NOTES.contains "B" = true)),
        if_pos hB, if_neg (show ¬(cfg.autoConvertB = true) by rw [hauto]; decide)]
    refine ⟨?_, ?_, ?_⟩
    · rw [convertNotes_fst, List.getElem?_map, htok]
      simp [hconv]
    · rw [NoteParser.validateNoteLine, if_neg hnb]
      simp only [validateNotesInLine_warnings_nil,
        bConversionWarnings_nil cfg hauto, List.append_nil]
    · refine ⟨⟨ErrorType.UNSUPPORTED_NOTE,
          "Unsupported note \x27" ++ tok ++ "\x27 at line " ++ toString n ++
            ", position " ++ toString (1 + i),
          some n, some (1 + i),
          some ("Use Bb instead of B for 4-hole ocarinas" :: SUPPORTED_NOTES)⟩,
        ?_, rfl, rfl, ?_, rfl⟩
      · rw [NoteParser.validateNoteLine, if_neg hnb]
        simp only []
        apply List.mem_append_right
        apply validateNotesInLine_errors_mem cfg _ n 1 i
          (NoteParser.normalizeNoteToken (NoteParser.noteConvertOne cfg tok))
          (hparse cfg)
        rw [hconv, hnorm, hvn]
        exact List.mem_singleton.mpr rfl
      · show some (1 + i) = some (i + 1)
        rw [Nat.add_comm]

/-- C4 witness: the token `"b"` at position 2 of line `"F b G"` (line
number 2), with auto-conversion on and off. -/
theorem C4_b_conversion_witness :
    ((NoteParser.convertNotes DEFAULT_CONFIG
        (NoteParser.validationTokens "F b G")).1[1]? = some "Bb" ∧
      (NoteParser.validateNoteLine DEFAULT_CONFIG "F b G" 2).warnings.countP
        (isConvWarnAt 2 2) = 1 ∧
      (∀ e ∈ (NoteParser.validateNoteLine DEFAULT_CONFIG "F b G" 2).errors,
        e.type = ErrorType.UNSUPPORTED_NOTE → e.position ≠ some 2)) ∧
    ((NoteParser.convertNotes { DEFAULT_CONFIG with autoConvertB := false }
        (NoteParser.validationTokens "F b G")).1[1]? = some "b" ∧
      (NoteParser.validateNoteLine { DEFAULT_CONFIG with autoConvertB := false }
        "F b G" 2).warnings = [] ∧
      (∃ e ∈ (NoteParser.validateNoteLine
          { DEFAULT_CONFIG with autoConvertB := false } "F b G" 2).errors,
        e.type = ErrorType.UNSUPPORTED_NOTE ∧ e.line = some 2 ∧
        e.position = some 2 ∧
        e.suggestions =
          some ("Use Bb instead of B for 4-hole ocarinas" :: SUPPORTED_NOTES))) :=
  ⟨(C4_b_conversion DEFAULT_CONFIG "F b G" 2 1 "b" (by decide) (by decide)).1 rfl,
   (C4_b_conversion { DEFAULT_CONFIG with autoConvertB := false } "F b G" 2 1 "b"
     (by decide) (by decide)).2 rfl⟩

/-! ## Line-splitting and C10 -/

/-- Every character of every segment produced by the line splitter comes
from the input (or the pending accumulator). -/
theorem splitLinesAux_mem : ∀ (xs acc : List Char) (seg : List Char),
    seg ∈ splitLinesAux xs acc → ∀ c ∈ seg, c ∈ xs ∨ c ∈ acc := by
  intro xs acc
  induction xs, acc using splitLinesAux.induct with
  | case1 acc =>
    intro seg hseg c hc
    simp only [splitLinesAux, List.mem_singleton] at hseg
    subst hseg
    exact Or.inr (List.mem_reverse.mp hc)
  | case2 rest acc ih =>
    intro seg hseg c hc
    simp only [splitLinesAux] at hseg
    rcases List.mem_cons.mp hseg with h | h
    · subst h
      exact Or.inr (List.mem_reverse.mp hc)
    · rcases ih seg h c hc with h2 | h2
      · exact Or.inl (by simp [h2])
      · simp at h2
  | case3 rest acc ih =>
    intro seg hseg c hc
    simp only [splitLinesAux] at hseg
    rcases List.mem_cons.mp hseg with h | h
    · subst h
      exact Or.inr (List.mem_reverse.mp hc)
    · rcases ih seg h c hc with h2 | h2
      · exact Or.inl (by simp [h2])
      · simp at h2
  | case4 c0 rest acc h1 h2 ih =>
    intro seg hseg c hc
    rw [splitLinesAux.eq_4 acc c0 rest h1 h2] at hseg
    rcases ih seg hseg c hc with h3 | h3
    · exact Or.inl (List.mem_cons_of_mem c0 h3)
    · rcases List.mem_cons.mp h3 with h4 | h4
      · exact Or.inl (h4 ▸ List.mem_cons_self c0 rest)
      · exact Or.inr h4

/-- If the first preprocessed line is not blank, the whole input does not
trim to empty. -/
theorem trim_input_ne_of_first_line (input : String)
    (h : jsTrim ((NoteParser.preprocessInput input).headD "") ≠ "") :
    ¬((jsTrim input).length = 0) := by
  intro h0
  have hws : ∀ c ∈ input.data, jsWhitespace c = true := by
    apply (jsTrimList_eq_nil_iff _).mp
    have : (jsTrim input).data.length = 0 := h0
    exact List.length_eq_zero.mp this
  apply h
  cases hsplit : splitLines input.data with
  | nil =>
    simp [NoteParser.preprocessInput, hsplit]
    rfl
  | cons seg rest =>
    have hseg : ∀ c ∈ seg, jsWhitespace c = true := by
      intro c hc
      rcases splitLinesAux_mem input.data [] seg
          (by rw [show splitLinesAux input.data [] = splitLines input.data from rfl,
                hsplit]; exact List.mem_cons_self seg rest) c hc with h2 | h2
      · exact hws c h2
      · simp at h2
    have hnil : jsTrimList seg = [] := (jsTrimList_eq_nil_iff seg).mpr hseg
    simp only [NoteParser.preprocessInput, hsplit, List.map_cons, List.headD_cons]
    show jsTrim (jsTrim ⟨seg⟩) = ""
    have : jsTrim (⟨seg⟩ : String) = "" := by
      apply String.ext
      exact hnil
    rw [this]
    rfl

/-- Blank lines validate to a single `EmptyLine` warning and no error. -/
theorem validateLines_all_blank (cfg : ParseConfig) :
    ∀ (ls : List String) (k : Nat), (∀ l ∈ ls, l = "") →
      (NoteParser.validateLines cfg ls k).1 = [] ∧
      ∀ w ∈ (NoteParser.validateLines cfg ls k).2,
        w.type = WarningType.EMPTY_LINE := by
  intro ls
  induction ls with
  | nil => intro k _; exact ⟨rfl, by intro w hw; simp [NoteParser.validateLines] at hw⟩
  | cons hd tl ih =>
    intro k hall
    have hhd : hd = "" := hall hd (List.mem_cons_self hd tl)
    have htl := ih (k + 1) fun l hl => hall l (List.mem_cons_of_mem hd hl)
    have hline : NoteParser.validateNoteLine cfg hd k =
        { isValid := true, errors := [],
          warnings := [{ type := WarningType.EMPTY_LINE,
                         message := "Line " ++ toString k ++ " is empty",
                         line := some k }] } := by
      rw [hhd, NoteParser.validateNoteLine, if_pos (by decide)]
    constructor
    · simp only [NoteParser.validateLines, hline, List.nil_append]
      exact htl.1
    · intro w hw
      simp only [NoteParser.validateLines, hline] at hw
      rcases List.mem_append.mp hw with h | h
      · simp only [List.mem_singleton] at h
        subst h
        rfl
      · exact htl.2 w h

/-- Blank lines contribute nothing to the parsed note lines. -/
theorem parseNoteLines_all_blank (cfg : ParseConfig) :
    ∀ (ls : List String), (∀ l ∈ ls, l = "") →
      NoteParser.parseNoteLines cfg ls = [] := by
  intro ls
  induction ls with
  | nil => intro _; rfl
  | cons hd tl ih =>
    intro hall
    have hhd : hd = "" := hall hd (List.mem_cons_self hd tl)
    have htl := ih fun l hl => hall l (List.mem_cons_of_mem hd hl)
    simp only [NoteParser.parseNoteLines, hhd]
    rw [if_pos (by decide)]
    exact htl

/-- C10 counterexample: a non-blank title followed by 101 blank lines meets
the claim's hypotheses (≥ 2 preprocessed lines, non-blank first line, only
blank lines after), yet `validateInput` rejects it — the claim omits the
`maxLines` cap. -/
theorem C10_counterexample :
    2 ≤ (NoteParser.preprocessInput manyBlankInput).length ∧
    (NoteParser.preprocessInput manyBlankInput).headD "" ≠ "" ∧
    ((NoteParser.preprocessInput manyBlankInput).drop 1).all (fun l => l = "") = true ∧
    (NoteParser.validateInput DEFAULT_CONFIG manyBlankInput).isValid = false := by
  decide

/-- C10 (amended): for every input whose preprocessed form has at least 2 and
at most `maxLines` lines, a non-blank first line and only blank lines after
the first, `validateInput` is valid with only `EmptyLine` warnings, and
`parseSong` succeeds with an empty `lines` sequence and `noteCount = 0`. -/
theorem C10_title_only (cfg : ParseConfig) (input : String)
    (h2 : 2 ≤ (NoteParser.preprocessInput input).length)
    (hmax : (NoteParser.preprocessInput input).length ≤ cfg.maxLines)
    (hfirst : jsTrim ((NoteParser.preprocessInput input).headD "") ≠ "")
    (hrest : ∀ l ∈ (NoteParser.preprocessInput input).drop 1, l = "") :
    (NoteParser.validateInput cfg input).isValid = true ∧
    (∀ w ∈ (NoteParser.validateInput cfg input).warnings,
      w.type = WarningType.EMPTY_LINE) ∧
    ∃ song, NoteParser.parseSong cfg input = Except.ok song ∧
      song.lines = [] ∧ song.metadata.noteCount = 0 := by
  have hne := trim_input_ne_of_first_line input hfirst
  have hlines := validateLines_all_blank cfg
    ((NoteParser.preprocessInput input).drop 1) 2 hrest
  have hvi : NoteParser.validateInput cfg input =
      { isValid := true, errors := [],
        warnings := (NoteParser.validateLines cfg
          ((NoteParser.preprocessInput input).drop 1) 2).2 } := by
    rw [NoteParser.validateInput, if_neg hne]
    simp only [if_neg (by omega : ¬((NoteParser.preprocessInput input).length < 2)),
      if_neg (by omega : ¬((NoteParser.preprocessInput input).length > cfg.maxLines)),
      hlines.1, List.nil_append, List.append_nil]
    rfl
  refine ⟨by rw [hvi], by rw [hvi]; exact hlines.2, ?_⟩
  refine ⟨⟨NoteParser.extractTitle (NoteParser.preprocessInput input), [], input, 0⟩,
    ?_, rfl, rfl⟩
  rw [NoteParser.parseSong]
  simp only [hvi]
  rw [if_pos trivial, parseNoteLines_all_blank cfg _ hrest]
  rfl

/-- C10 witness at the concrete input `"Title\n"`. -/
theorem C10_title_only_witness :
    (NoteParser.validateInput DEFAULT_CONFIG "Title\n").isValid = true ∧
    (∀ w ∈ (NoteParser.validateInput DEFAULT_CONFIG "Title\n").warnings,
      w.type = WarningType.EMPTY_LINE) ∧
    ∃ song, NoteParser.parseSong DEFAULT_CONFIG "Title\n" = Except.ok song ∧
      song.lines = [] ∧ song.metadata.noteCount = 0 :=
  C10_title_only DEFAULT_CONFIG "Title\n" (by decide) (by decide) (by decide)
    (by decide)
